import Mathlib

/-!
Shallow embedding of `ethers-contract-abigen/src/util.rs` (ethers-rs).

The file models, faithfully to the Rust source:
- `determine_ethers_crates` together with the `Cargo.lock` existence
  bookkeeping around the `cargo metadata` invocation (the external tool is
  modelled by an environment record: the query's result and whether it
  creates the lock file, plus whether the best-effort deletion fails);
- the identifier sanitization pipeline `expand_input_name` / `safe_ident`
  (with `Inflector::to_snake_case` and the `syn`/`proc_macro2` identifier
  rules embedded for ASCII character data);
- `preserve_underscore_delim`;
- `parse_address` with the fixed-hash `FromStr` decoding through the
  `rustc-hex` decoder, which skips the whitespace characters space, CR, LF
  and TAB and requires the remaining hex digits to give exactly 20 bytes;
- the `syn::Path` parsing done by the `ethers_*_crate` accessors.

Bytes are `Nat` below 256; file-system state for the lock file is its
existence flag, the only part of it the source reads or writes.
-/

/-! ### Cargo metadata model (`determine_ethers_crates`) -/

/-- Dependency kind as reported by `cargo_metadata` (`DependencyKind`). -/
inductive DependencyKind where
  | normal
  | development
  | build
  | unknown
deriving DecidableEq

/-- One dependency entry of a package: its name and kind. -/
structure Dependency where
  name : String
  kind : DependencyKind
deriving DecidableEq

/-- The root package: only its dependency list is inspected by the source. -/
structure Package where
  dependencies : List Dependency
deriving DecidableEq

/-- Metadata as returned by a successful `cargo metadata` run: the source
only looks at `root_package()`, which may be absent (virtual workspace). -/
structure Metadata where
  root_package : Option Package
deriving DecidableEq

/-- Environment of one `determine_ethers_crates` run: the outcome of the
`MetadataCommand` (`none` models any failure of the query: missing manifest,
tool unavailable, malformed output), whether the query writes a `Cargo.lock`
as a byproduct when none is present, and whether the best-effort
`std::fs::remove_file` fails. -/
structure CargoEnv where
  metadataResult : Option Metadata
  queryCreatesLockFile : Bool
  removeFileFails : Bool

/-- The standalone triple `("ethers_core", "ethers_contract", "ethers_providers")`. -/
def standaloneCrates : String × String × String :=
  ("ethers_core", "ethers_contract", "ethers_providers")

/-- The umbrella triple `("ethers::core", "ethers::contract", "ethers::providers")`. -/
def umbrellaCrates : String × String × String :=
  ("ethers::core", "ethers::contract", "ethers::providers")

/-- The `filter(kind == Normal).find_map(name == "ethers" => umbrella)` chain
over the root package's dependencies. -/
def findEthersDep (deps : List Dependency) : Option (String × String × String) :=
  (deps.filter (fun dep => dep.kind == DependencyKind.normal)).findSome?
    (fun dep => if dep.name == "ethers" then some umbrellaCrates else none)

/-- Running `MetadataCommand::exec`: returns the environment's outcome and, as
a side effect, may create the lock file when none exists. -/
def runMetadataCommand (env : CargoEnv) (lockExists : Bool) :
    Option Metadata × Bool :=
  (env.metadataResult, lockExists || env.queryCreatesLockFile)

/-- Best-effort `std::fs::remove_file` on the lock file: deletes it unless the
deletion fails; its `Result` is discarded by the source (`let _ = ...`). -/
def removeLockFile (env : CargoEnv) (lockExists : Bool) : Bool :=
  if env.removeFileFails then lockExists else false

/-- Embedding of `determine_ethers_crates`: records whether the lock file is
missing, runs the metadata query, picks the umbrella triple exactly when the
root package has a normal-kind dependency named "ethers" (any query failure
falls back to the standalone triple via `unwrap_or`), then deletes the lock
file it may have created. Returns the triple and the final lock-file state. -/
def determine_ethers_crates (env : CargoEnv) (lockExists : Bool) :
    (String × String × String) × Bool :=
  let needsLockFileCleanup := !lockExists
  let queryOut := runMetadataCommand env lockExists
  let res := (queryOut.1.bind fun metadata =>
    metadata.root_package.bind fun pkg => findEthersDep pkg.dependencies).getD
      standaloneCrates
  let lockFinal :=
    if needsLockFileCleanup then removeLockFile env queryOut.2 else queryOut.2
  (res, lockFinal)

/-! ### Helper lemmas for the crate-resolution triple -/

theorem findEthersDep_eq (deps : List Dependency) :
    findEthersDep deps =
      if deps.any (fun dep =>
          dep.kind == DependencyKind.normal && dep.name == "ethers")
      then some umbrellaCrates else none := by
  induction deps with
  | nil => rfl
  | cons d ds ih =>
    unfold findEthersDep at ih ⊢
    rw [List.filter_cons, List.any_cons]
    by_cases hk : d.kind = DependencyKind.normal
    · by_cases hn : d.name = "ethers"
      · simp [hk, hn, List.findSome?_cons]
      · simpa [hk, hn, List.findSome?_cons] using ih
    · simpa [hk] using ih

theorem findEthersDep_eq_some_iff (deps : List Dependency)
    (t : String × String × String) :
    findEthersDep deps = some t ↔
      t = umbrellaCrates ∧
        ∃ dep ∈ deps, dep.kind = DependencyKind.normal ∧ dep.name = "ethers" := by
  rw [findEthersDep_eq]
  by_cases h : deps.any (fun dep =>
      dep.kind == DependencyKind.normal && dep.name == "ethers") = true
  · rw [if_pos h]
    simp only [List.any_eq_true, Bool.and_eq_true, beq_iff_eq] at h
    obtain ⟨dep, hmem, hkind, hname⟩ := h
    constructor
    · intro hsome
      cases hsome
      exact ⟨rfl, dep, hmem, hkind, hname⟩
    · rintro ⟨rfl, -⟩
      rfl
  · rw [if_neg h]
    simp only [List.any_eq_true, Bool.and_eq_true, beq_iff_eq] at h
    constructor
    · intro hsome
      cases hsome
    · rintro ⟨rfl, dep, hmem, hkind, hname⟩
      exact absurd ⟨dep, hmem, hkind, hname⟩ h

theorem determine_triple_cases (env : CargoEnv) (lockExists : Bool) :
    (determine_ethers_crates env lockExists).1 = umbrellaCrates ∨
      (determine_ethers_crates env lockExists).1 = standaloneCrates := by
  unfold determine_ethers_crates
  cases hm : env.metadataResult with
  | none => simp [runMetadataCommand, hm]
  | some metadata =>
    cases hr : metadata.root_package with
    | none => simp [runMetadataCommand, hm, hr]
    | some pkg =>
      simp only [runMetadataCommand, hm, hr, Option.some_bind]
      rw [findEthersDep_eq]
      by_cases hf : pkg.dependencies.any (fun dep =>
          dep.kind == DependencyKind.normal && dep.name == "ethers") = true
      · simp [hf]
      · simp [hf]

/-! ### Claims C1-C3 -/

/-- C1: for every failure of the dependency query (modelled as
`metadataResult = none`: missing manifest, query tool unavailable, malformed
graph output), `determine_ethers_crates` does not surface an error but
returns the standalone triple
`("ethers_core", "ethers_contract", "ethers_providers")`. -/
theorem determine_ethers_crates_query_failure (env : CargoEnv)
    (lockExists : Bool) (h : env.metadataResult = none) :
    (determine_ethers_crates env lockExists).1 =
      ("ethers_core", "ethers_contract", "ethers_providers") := by
  unfold determine_ethers_crates
  simp [runMetadataCommand, h, standaloneCrates]

theorem determine_ethers_crates_query_failure_witness :
    (determine_ethers_crates ⟨none, true, false⟩ false).1 =
      ("ethers_core", "ethers_contract", "ethers_providers") :=
  determine_ethers_crates_query_failure ⟨none, true, false⟩ false rfl

/-- C2: lock-file frame property of `determine_ethers_crates`: if no
`Cargo.lock` existed before the query, none exists after the call (the file
the query may create is deleted; the deletion's result is discarded, never
propagated — the returned triple does not depend on it); if a lock file
already existed, it is left untouched. -/
theorem determine_ethers_crates_lock_file_frame (env : CargoEnv)
    (lockExists : Bool) :
    (lockExists = false → env.removeFileFails = false →
      (determine_ethers_crates env lockExists).2 = false)
    ∧ (lockExists = true → (determine_ethers_crates env lockExists).2 = true)
    ∧ (∀ b : Bool,
        (determine_ethers_crates { env with removeFileFails := b }
            lockExists).1 =
          (determine_ethers_crates env lockExists).1) := by
  refine ⟨?_, ?_, ?_⟩
  · rintro rfl hrm
    unfold determine_ethers_crates
    simp [runMetadataCommand, removeLockFile, hrm]
  · rintro rfl
    unfold determine_ethers_crates
    simp [runMetadataCommand]
  · intro b
    unfold determine_ethers_crates
    simp [runMetadataCommand]

theorem determine_ethers_crates_lock_file_frame_witness :
    (determine_ethers_crates ⟨none, true, false⟩ false).2 = false
    ∧ (determine_ethers_crates ⟨none, true, false⟩ true).2 = true :=
  ⟨(determine_ethers_crates_lock_file_frame ⟨none, true, false⟩ false).1 rfl
      rfl,
    (determine_ethers_crates_lock_file_frame ⟨none, true, false⟩ true).2.1 rfl⟩

/-- C3: `determine_ethers_crates` returns exactly one of two fixed triples,
and it returns the umbrella triple if and only if the dependency query
succeeds, a root package is present, and that package has a direct
normal-kind dependency literally named "ethers"; otherwise the standalone
triple. No mixed triple is ever returned. -/
theorem determine_ethers_crates_two_fixed_triples (env : CargoEnv)
    (lockExists : Bool) :
    ((determine_ethers_crates env lockExists).1 = umbrellaCrates ∨
      (determine_ethers_crates env lockExists).1 = standaloneCrates)
    ∧ ((determine_ethers_crates env lockExists).1 = umbrellaCrates ↔
        ∃ metadata pkg, env.metadataResult = some metadata ∧
          metadata.root_package = some pkg ∧
          ∃ dep ∈ pkg.dependencies,
            dep.kind = DependencyKind.normal ∧ dep.name = "ethers") := by
  refine ⟨determine_triple_cases env lockExists, ?_⟩
  cases hm : env.metadataResult with
  | none =>
    have h1 : (determine_ethers_crates env lockExists).1 = standaloneCrates := by
      unfold determine_ethers_crates
      simp [runMetadataCommand, hm]
    rw [h1]
    constructor
    · intro h
      exact absurd h (by decide)
    · rintro ⟨metadata, pkg, hmd, -, -⟩
      cases hmd
  | some metadata =>
    cases hr : metadata.root_package with
    | none =>
      have h1 : (determine_ethers_crates env lockExists).1 =
          standaloneCrates := by
        unfold determine_ethers_crates
        simp [runMetadataCommand, hm, hr]
      rw [h1]
      constructor
      · intro h
        exact absurd h (by decide)
      · rintro ⟨m, p, hmd, hrp, -⟩
        cases hmd
        rw [hr] at hrp
        cases hrp
    | some pkg =>
      have key : (determine_ethers_crates env lockExists).1 =
          (findEthersDep pkg.dependencies).getD standaloneCrates := by
        unfold determine_ethers_crates
        simp [runMetadataCommand, hm, hr]
      rw [key, findEthersDep_eq]
      by_cases hf : pkg.dependencies.any (fun dep =>
          dep.kind == DependencyKind.normal && dep.name == "ethers") = true
      · rw [if_pos hf]
        simp only [List.any_eq_true, Bool.and_eq_true, beq_iff_eq] at hf
        simp only [Option.getD_some]
        constructor
        · intro _
          exact ⟨metadata, pkg, rfl, hr, hf⟩
        · intro _
          trivial
      · rw [if_neg hf]
        simp only [List.any_eq_true, Bool.and_eq_true, beq_iff_eq] at hf
        simp only [Option.getD_none]
        constructor
        · intro h
          exact absurd h (by decide)
        · rintro ⟨m, p, hmd, hrp, hdep⟩
          cases hmd
          rw [hr] at hrp
          cases hrp
          exact absurd hdep hf

theorem determine_ethers_crates_two_fixed_triples_witness :
    (determine_ethers_crates
        ⟨some ⟨some ⟨[⟨"ethers", DependencyKind.normal⟩]⟩⟩, false, false⟩
        true).1 = umbrellaCrates :=
  (determine_ethers_crates_two_fixed_triples
      ⟨some ⟨some ⟨[⟨"ethers", DependencyKind.normal⟩]⟩⟩, false, false⟩
      true).2.mpr
    ⟨⟨some ⟨[⟨"ethers", DependencyKind.normal⟩]⟩⟩,
      ⟨[⟨"ethers", DependencyKind.normal⟩]⟩, rfl, rfl,
      ⟨"ethers", DependencyKind.normal⟩, List.mem_singleton_self _, rfl, rfl⟩

/-! ### Identifier sanitization model (`safe_ident`, `expand_input_name`)

Character classification follows the Rust libraries on ASCII data:
`char::is_alphanumeric` / `char::is_lowercase` are modelled by Lean's ASCII
classifiers, and the `unicode-xid` classes of `proc_macro2` by ASCII letters,
digits and '_'. -/

/-- ASCII `to_ascii_lowercase` as used by Inflector's snake-case writer. -/
def toAsciiLowercase (c : Char) : Char :=
  if 'A' ≤ c ∧ c ≤ 'Z' then Char.ofNat (c.toNat + 32) else c

/-- ASCII `to_ascii_uppercase`. -/
def toAsciiUppercase (c : Char) : Char :=
  if 'a' ≤ c ∧ c ≤ 'z' then Char.ofNat (c.toNat - 32) else c

/-- Inflector's `char_is_uppercase`: the character equals its ASCII uppercase
form; note that digits (and every character without an ASCII lowercase form)
count as uppercase here. -/
def charIsUppercase (c : Char) : Bool := toAsciiUppercase c == c

/-- Inflector's `char_is_seperator`: any non-alphanumeric character. -/
def charIsSeparator (c : Char) : Bool := !c.isAlphanum

/-- Inflector's `next_or_previous_char_is_lowercase`. At index 0 the
`wrapping_sub` in the source produces an out-of-range index, so the lookup
falls back to the default 'A' (not lowercase). -/
def nextOrPreviousCharIsLowercase (orig : List Char) (i : Nat) : Bool :=
  (orig.getD (i + 1) 'A').isLower ||
    (if i = 0 then false else (orig.getD (i - 1) 'A').isLower)

/-- Inflector's `requires_seperator`. -/
def requiresSeparator (orig : List Char) (i : Nat) (firstCharacter : Bool)
    (c : Char) : Bool :=
  !firstCharacter && charIsUppercase c && nextOrPreviousCharIsLowercase orig i

/-- Inflector's `trim_right`: drop the trailing separator run. -/
def trimRightSeparators (cs : List Char) : List Char :=
  (cs.reverse.dropWhile charIsSeparator).reverse

/-- The character loop of Inflector's `to_case_snake_like` with replacement
`"_"` and case `"lower"`: `orig` is the untrimmed string (the word-boundary
test reads it), `i` the current index, the `Bool` is `first_character`. -/
def toCaseSnakeLikeGo (orig : List Char) : Nat → Bool → List Char → List Char
  | _, _, [] => []
  | i, firstCharacter, c :: rest =>
    if charIsSeparator c then
      (if firstCharacter then [] else ['_']) ++
        toCaseSnakeLikeGo orig (i + 1) true rest
    else if requiresSeparator orig i firstCharacter c then
      '_' :: toAsciiLowercase c :: toCaseSnakeLikeGo orig (i + 1) false rest
    else
      toAsciiLowercase c :: toCaseSnakeLikeGo orig (i + 1) false rest

/-- Inflector's `to_snake_case`, as called by `expand_input_name`. -/
def to_snake_case (s : String) : String :=
  ⟨toCaseSnakeLikeGo s.data 0 true (trimRightSeparators s.data)⟩

/-- The keywords `syn`'s `accept_as_ident` rejects when parsing an `Ident`. -/
def synKeywords : List String :=
  ["_", "abstract", "as", "async", "await", "become", "box", "break",
   "const", "continue", "crate", "do", "dyn", "else", "enum", "extern",
   "false", "final", "fn", "for", "if", "impl", "in", "let", "loop",
   "macro", "match", "mod", "move", "mut", "override", "priv", "pub",
   "ref", "return", "Self", "self", "static", "struct", "super", "trait",
   "true", "try", "type", "typeof", "unsafe", "unsized", "use", "virtual",
   "where", "while", "yield"]

/-- Whether `syn` refuses the string as a standalone `Ident`. -/
def isSynKeyword (s : String) : Bool := synKeywords.any (fun k => s == k)

/-- First character a `proc_macro2` identifier may have (ASCII XID model). -/
def isIdentStart (c : Char) : Bool := c.isAlpha || c == '_'

/-- Continuation character of a `proc_macro2` identifier (ASCII XID model). -/
def isIdentContinue (c : Char) : Bool := c.isAlphanum || c == '_'

/-- Identifier shape `proc_macro2`'s `validate_ident` accepts: nonempty,
ident-start head, ident-continue tail (an all-digit string already fails the
head test). -/
def isIdentShape (s : String) : Bool :=
  match s.data with
  | [] => false
  | c :: cs => isIdentStart c && cs.all isIdentContinue

/-- `proc_macro2::Ident::new` (the source's `ident`): `none` models the
panic on an invalid identifier string. -/
def identNew (s : String) : Option String :=
  if isIdentShape s then some s else none

/-- `syn::parse_str::<Ident>`: succeeds exactly on identifier-shaped strings
that are not on the keyword list. -/
def parseSynIdent (s : String) : Option String :=
  if isIdentShape s && !isSynKeyword s then some s else none

/-- `safe_ident`: parse as a `syn` ident; on failure append '_' and build
the token with `Ident::new` (whose panic is `none`). -/
def safe_ident (s : String) : Option String :=
  match parseSynIdent s with
  | some i => some i
  | none => identNew (s ++ "_")

/-- Decimal digits of `n`, as Rust's `Display` for `usize` prints them. -/
def natDecimalDigits (n : Nat) : List Char :=
  if n < 10 then [Char.ofNat (48 + n)]
  else natDecimalDigits (n / 10) ++ [Char.ofNat (48 + n % 10)]
termination_by n
decreasing_by exact Nat.div_lt_self (by omega) (by omega)

/-- Rust's `format!("{}", n)` for an unsigned integer. -/
def natDecimalRepr (n : Nat) : String := ⟨natDecimalDigits n⟩

/-- `expand_input_name`: an empty name becomes the positional placeholder
`p<index>` (Rust `format!("p{}", index)`), any other name is snake-cased;
the result then goes through `safe_ident`. `none` models a panic. -/
def expand_input_name (index : Nat) (name : String) : Option String :=
  let nameStr :=
    if name = "" then "p" ++ natDecimalRepr index else to_snake_case name
  safe_ident nameStr

/-- `preserve_underscore_delim`: the Rust iterator chain
`alias.take_while('_') ++ ident ++ alias.rev().take_while('_')`. -/
def preserve_underscore_delim (ident aliasStr : String) : String :=
  ⟨aliasStr.data.takeWhile (fun c => c == '_') ++ ident.data ++
    aliasStr.data.reverse.takeWhile (fun c => c == '_')⟩

/-! ### Helper lemmas for identifier sanitization -/

theorem toAsciiLowercase_isAlphanum (c : Char) (h : c.isAlphanum = true) :
    (toAsciiLowercase c).isAlphanum = true := by
  unfold toAsciiLowercase
  by_cases hc : 'A' ≤ c ∧ c ≤ 'Z'
  · rw [if_pos hc]
    obtain ⟨h1, h2⟩ := hc
    have hn1 : 65 ≤ c.toNat := h1
    have hn2 : c.toNat ≤ 90 := h2
    generalize c.toNat = n at hn1 hn2
    interval_cases n <;> decide
  · rwa [if_neg hc]

theorem toCaseSnakeLikeGo_all_continue (orig : List Char) (i : Nat)
    (fc : Bool) (l : List Char) :
    (toCaseSnakeLikeGo orig i fc l).all isIdentContinue = true := by
  induction l generalizing i fc with
  | nil => rfl
  | cons c cs ih =>
    rw [toCaseSnakeLikeGo]
    by_cases hsep : charIsSeparator c = true
    · rw [if_pos hsep]
      cases fc <;> simp [ih, isIdentContinue]
    · rw [if_neg hsep]
      have halnum : c.isAlphanum = true := by
        unfold charIsSeparator at hsep
        simpa using hsep
      have hlow : isIdentContinue (toAsciiLowercase c) = true := by
        simp [isIdentContinue, toAsciiLowercase_isAlphanum c halnum]
      by_cases hreq : requiresSeparator orig i fc c = true
      · rw [if_pos hreq]
        simp only [List.all_cons, Bool.and_eq_true]
        exact ⟨by decide, hlow, ih (i + 1) false⟩
      · rw [if_neg hreq]
        simp only [List.all_cons, Bool.and_eq_true]
        exact ⟨hlow, ih (i + 1) false⟩

theorem to_snake_case_all_continue (name : String) :
    (to_snake_case name).data.all isIdentContinue = true :=
  toCaseSnakeLikeGo_all_continue _ _ _ _

theorem isIdentShape_append_underscore (l : List Char)
    (hall : l.all isIdentContinue = true)
    (hhead : l.head?.all (fun c => !c.isDigit) = true) :
    isIdentShape ⟨l ++ ['_']⟩ = true := by
  cases l with
  | nil => decide
  | cons c cs =>
    rw [List.cons_append]
    have hc : isIdentContinue c = true := by
      simp only [List.all_cons, Bool.and_eq_true] at hall
      exact hall.1
    have hcs : cs.all isIdentContinue = true := by
      simp only [List.all_cons, Bool.and_eq_true] at hall
      exact hall.2
    have hcd : c.isDigit = false := by
      simp only [List.head?_cons, Option.all_some] at hhead
      simpa using hhead
    have hstart : isIdentStart c = true := by
      simp only [isIdentContinue, Char.isAlphanum, hcd, Bool.or_false,
        Bool.or_eq_true] at hc
      simpa [isIdentStart, Bool.or_eq_true] using hc
    show (isIdentStart c && (cs ++ ['_']).all isIdentContinue) = true
    rw [hstart, List.all_append, hcs]
    decide

theorem safe_ident_isSome_of_continue (s : String)
    (hall : s.data.all isIdentContinue = true)
    (hhead : s.data.head?.all (fun c => !c.isDigit) = true) :
    (safe_ident s).isSome = true := by
  unfold safe_ident
  cases hp : parseSynIdent s with
  | some i => rfl
  | none =>
    have hdata : (s ++ "_").data = s.data ++ ['_'] := by
      simp [String.data_append]
    have hshape : isIdentShape (s ++ "_") = true := by
      have := isIdentShape_append_underscore s.data hall hhead
      rwa [show (⟨s.data ++ ['_']⟩ : String) = s ++ "_" from
        String.ext hdata.symm] at this
    unfold identNew
    rw [hshape]
    rfl

theorem charOfNat_digit_isDigit {r : Nat} (h : r < 10) :
    (Char.ofNat (48 + r)).isDigit = true := by
  interval_cases r <;> decide

theorem natDecimalDigits_ne_nil (n : Nat) : natDecimalDigits n ≠ [] := by
  rw [natDecimalDigits]
  by_cases h : n < 10
  · rw [if_pos h]
    exact List.cons_ne_nil _ _
  · rw [if_neg h]
    simp

theorem natDecimalDigits_all_digit (n : Nat) :
    (natDecimalDigits n).all Char.isDigit = true := by
  induction n using Nat.strong_induction_on with
  | _ n ih =>
    rw [natDecimalDigits]
    by_cases h : n < 10
    · rw [if_pos h]
      simpa using charOfNat_digit_isDigit h
    · rw [if_neg h]
      rw [List.all_append, Bool.and_eq_true]
      exact ⟨ih (n / 10) (Nat.div_lt_self (by omega) (by omega)),
        by simpa using charOfNat_digit_isDigit (Nat.mod_lt _ (by omega))⟩

/-- Shape test used to rule out keyword collisions for the positional
placeholders: no keyword consists of 'p' followed by a digit. -/
def pDigitShapeOK (l : List Char) : Bool :=
  match l with
  | 'p' :: d :: _ => !d.isDigit
  | _ => true

theorem synKeywords_pShape :
    synKeywords.all (fun k => pDigitShapeOK k.data) = true := by decide

theorem isSynKeyword_p_digit (d : Char) (rest : List Char)
    (hd : d.isDigit = true) :
    isSynKeyword ⟨'p' :: d :: rest⟩ = false := by
  rw [isSynKeyword, List.any_eq_false]
  intro k hk
  have hshape := List.all_eq_true.mp synKeywords_pShape k hk
  intro hbeq
  have hk2 : (⟨'p' :: d :: rest⟩ : String) = k := eq_of_beq hbeq
  rw [← hk2] at hshape
  simp [pDigitShapeOK, hd] at hshape

theorem safe_ident_eq_some (s : String) (hshape : isIdentShape s = true)
    (hkw : isSynKeyword s = false) : safe_ident s = some s := by
  unfold safe_ident parseSynIdent
  rw [hshape, hkw]
  rfl

theorem expand_input_name_empty_eq (index : Nat) :
    expand_input_name index "" = some ("p" ++ natDecimalRepr index) := by
  have hdata : ("p" ++ natDecimalRepr index).data =
      'p' :: natDecimalDigits index := by
    simp [natDecimalRepr, String.data_append]
  have hmk : ("p" ++ natDecimalRepr index) =
      (⟨'p' :: natDecimalDigits index⟩ : String) := String.ext hdata
  obtain ⟨d, rest, hdd⟩ : ∃ d rest, natDecimalDigits index = d :: rest := by
    cases hdd : natDecimalDigits index with
    | nil => exact absurd hdd (natDecimalDigits_ne_nil index)
    | cons d rest => exact ⟨d, rest, rfl⟩
  have hdall := natDecimalDigits_all_digit index
  rw [hdd] at hdall
  simp only [List.all_cons, Bool.and_eq_true] at hdall
  have hshape : isIdentShape ("p" ++ natDecimalRepr index) = true := by
    rw [hmk, hdd]
    show (isIdentStart 'p' && (d :: rest).all isIdentContinue) = true
    rw [List.all_cons]
    have hdc : isIdentContinue d = true := by
      simp [isIdentContinue, Char.isAlphanum, hdall.1]
    rw [hdc]
    have : rest.all isIdentContinue = true := by
      rw [List.all_eq_true]
      intro c hc
      have : c.isDigit = true := List.all_eq_true.mp hdall.2 c hc
      simp [isIdentContinue, Char.isAlphanum, this]
    rw [this]
    decide
  have hkw : isSynKeyword ("p" ++ natDecimalRepr index) = false := by
    rw [hmk, hdd]
    exact isSynKeyword_p_digit d rest hdall.1
  show safe_ident ("p" ++ natDecimalRepr index) =
    some ("p" ++ natDecimalRepr index)
  exact safe_ident_eq_some _ hshape hkw

/-! ### Claims C6-C8 -/

/-- C6 counterexample: `expand_input_name` is not total. For the name
"1abc" the snake-cased string starts with a digit, `syn` refuses it, and the
`Ident::new` fallback on "1abc_" panics (modelled as `none`). -/
theorem expand_input_name_digit_name_panics :
    expand_input_name 0 "1abc" = none := by decide

/-- C6 (amended): `expand_input_name` returns an identifier token for every
index and every ASCII name whose snake-cased form does not start with a
decimal digit; for names whose snake-cased form starts with a digit the
underscore fallback is itself an invalid identifier and `Ident::new` panics.
The ASCII hypothesis scopes the statement to inputs on which the embedded
character classifiers coincide with Rust's Unicode ones: outside ASCII the
program can also panic on names headed by an XID_Continue-but-not-XID_Start
character (e.g. a Devanagari digit), which this model does not cover. -/
theorem expand_input_name_no_panic (index : Nat) (name : String)
    (hascii : name.data.all (fun c => c.toNat < 128) = true)
    (h : ((to_snake_case name).data.head?.all fun c => !c.isDigit) = true) :
    (expand_input_name index name).isSome = true := by
  by_cases hname : name = ""
  · subst hname
    rw [expand_input_name_empty_eq]
    rfl
  · unfold expand_input_name
    rw [if_neg hname]
    exact safe_ident_isSome_of_continue _ (to_snake_case_all_continue name) h

theorem expand_input_name_no_panic_witness :
    ("foo" : String).data.all (fun c => c.toNat < 128) = true
    ∧ ((to_snake_case "foo").data.head?.all fun c => !c.isDigit) = true
    ∧ (expand_input_name 0 "foo").isSome = true :=
  ⟨by decide, by decide, expand_input_name_no_panic 0 "foo" (by decide)
    (by decide)⟩

/-- C7: the sanitization rules in order: an empty name yields the placeholder
"p" followed by the decimal index (at every index); a non-empty name is
snake-cased and passed to `safe_ident`; "CamelCase1" becomes "camel_case_1",
and the keyword "self" gets a trailing underscore, "self_". -/
theorem expand_input_name_rules (index : Nat) (name : String) :
    (name = "" →
      expand_input_name index name = some ("p" ++ natDecimalRepr index))
    ∧ (name ≠ "" →
      expand_input_name index name = safe_ident (to_snake_case name))
    ∧ expand_input_name index "CamelCase1" = some "camel_case_1"
    ∧ expand_input_name index "self" = some "self_" := by
  refine ⟨?_, ?_, rfl, rfl⟩
  · rintro rfl
    exact expand_input_name_empty_eq index
  · intro h
    unfold expand_input_name
    rw [if_neg h]

theorem expand_input_name_rules_witness :
    expand_input_name 0 "" = some ("p" ++ natDecimalRepr 0) :=
  (expand_input_name_rules 0 "").1 rfl

theorem takeWhile_underscore_reverse (l : List Char) :
    (l.takeWhile (fun c => c == '_')).reverse =
      l.takeWhile (fun c => c == '_') := by
  have hall : ∀ c ∈ l.takeWhile (fun c => c == '_'), c = '_' := by
    intro c hc
    have hp := List.mem_takeWhile_imp (p := fun x => x == '_') hc
    simp only [] at hp
    exact eq_of_beq hp
  rw [List.eq_replicate_of_mem hall]
  exact List.reverse_replicate _ _

/-- C8: `preserve_underscore_delim` returns the leading underscore run of
the alias, then the ident unchanged, then the trailing underscore run of the
alias; in particular on "pascalCase" and "__pascalcase__" it yields
"__pascalCase__". -/
theorem preserve_underscore_delim_spec (ident aliasStr : String) :
    (preserve_underscore_delim ident aliasStr).data =
      aliasStr.data.takeWhile (fun c => c == '_') ++ ident.data ++
        (aliasStr.data.reverse.takeWhile (fun c => c == '_')).reverse
    ∧ preserve_underscore_delim "pascalCase" "__pascalcase__" =
        "__pascalCase__" := by
  constructor
  · show aliasStr.data.takeWhile (fun c => c == '_') ++ ident.data ++
        aliasStr.data.reverse.takeWhile (fun c => c == '_') =
      aliasStr.data.takeWhile (fun c => c == '_') ++ ident.data ++
        (aliasStr.data.reverse.takeWhile (fun c => c == '_')).reverse
    rw [takeWhile_underscore_reverse]
  · decide

/-! ### Address parsing model (`parse_address`) -/

/-- Value of one hexadecimal digit, as the `rustc-hex` decoder reads it
(`A`-`F`, `a`-`f`, `0`-`9`). -/
def hexDigitValue (c : Char) : Option Nat :=
  if 'A' ≤ c ∧ c ≤ 'F' then some (c.toNat - 65 + 10)
  else if 'a' ≤ c ∧ c ≤ 'f' then some (c.toNat - 97 + 10)
  else if '0' ≤ c ∧ c ≤ '9' then some (c.toNat - 48)
  else none

/-- Whether a character is a hexadecimal digit of the decoder. -/
def isHexDigit (c : Char) : Bool := (hexDigitValue c).isSome

/-- The whitespace characters the `rustc-hex` decoder skips. -/
def isHexSkipWs (c : Char) : Bool :=
  c == ' ' || c == '\r' || c == '\n' || c == '\t'

/-- The `rustc-hex` `from_hex` loop. Per input character the `u8`
accumulator is first shifted (`buf <<= 4`, here `* 16 % 256`); a hex digit
is or-ed into the freed low nibble and, when it completes a pair, the byte
is pushed; one of the four whitespace characters undoes the shift
(`buf >>= 4`, here `/ 16`) and is skipped; anything else is an
invalid-character error. `pending` renders the source's `modulus`, which is
0 or 1 at every loop head (it is reset on reaching 2); a pending digit left
at the end is an invalid-length error. -/
def fromHexLoop : List Char → Bool → Nat → Option (List Nat)
  | [], pending, _ => if pending then none else some []
  | c :: rest, pending, buf =>
    match hexDigitValue c with
    | some d =>
      if pending then
        (fromHexLoop rest false (buf * 16 % 256 + d)).map
          (fun tl => (buf * 16 % 256 + d) :: tl)
      else fromHexLoop rest true (buf * 16 % 256 + d)
    | none =>
      if isHexSkipWs c then fromHexLoop rest pending (buf * 16 % 256 / 16)
      else none

/-- `rustc-hex`'s `from_hex` (the model iterates characters where the
source iterates UTF-8 bytes: every byte of a non-ASCII character is
invalid to the source, as the character itself is here). -/
def from_hex (cs : List Char) : Option (List Nat) := fromHexLoop cs false 0

/-- The `H160` (`Address`) `FromStr` instance applied after the prefix was
stripped: hex-decode and require exactly 20 bytes. -/
def addressFromStr (cs : List Char) : Option (List Nat) :=
  match from_hex cs with
  | some bytes => if bytes.length = 20 then some bytes else none
  | none => none

/-- The two failure kinds of `parse_address`: the explicit
`anyhow!("address must start with \'0x\'")` error, and the hex-decoding error
propagated with `?`. -/
inductive AddressParseError where
  | missingHexMark
  | invalidEncoding
deriving DecidableEq

/-- Rust's `starts_with("0x")` on the input string. -/
def startsWith0x (s : String) : Bool :=
  match s.data with
  | '0' :: 'x' :: _ => true
  | _ => false

/-- Embedding of `parse_address`: reject inputs without the "0x" mark, then
parse the remainder (`&address_str[2..]`) as a 20-byte hex address. -/
def parse_address (s : String) : Except AddressParseError (List Nat) :=
  if startsWith0x s then
    match addressFromStr (s.data.drop 2) with
    | some bytes => Except.ok bytes
    | none => Except.error AddressParseError.invalidEncoding
  else Except.error AddressParseError.missingHexMark

/-- Pairing of decoded digit values into bytes, the reference shape of the
loop's output. -/
def hexPairs : List Nat → List Nat
  | [] => []
  | [_] => []
  | d1 :: d2 :: rest => (16 * d1 + d2) :: hexPairs rest

/-! ### Helper lemmas for address parsing -/

theorem hexDigitValue_lt_16 (c : Char) (d : Nat)
    (h : hexDigitValue c = some d) : d < 16 := by
  unfold hexDigitValue at h
  split_ifs at h with h1 h2 h3
  · cases h
    have hb : c.toNat ≤ 70 := h1.2
    omega
  · cases h
    have hb : c.toNat ≤ 102 := h2.2
    omega
  · cases h
    have ha : 48 ≤ c.toNat := h3.1
    have hb : c.toNat ≤ 57 := h3.2
    omega

theorem length_filterMap_hexDigitValue (cs : List Char) :
    (cs.filterMap hexDigitValue).length =
      cs.countP (fun c => isHexDigit c) := by
  induction cs with
  | nil => rfl
  | cons c rest ih =>
    cases hd : hexDigitValue c with
    | some d =>
      rw [List.filterMap_cons_some hd,
        List.countP_cons_of_pos _ _ (by simp [isHexDigit, hd])]
      simp [ih]
    | none =>
      rw [List.filterMap_cons_none hd,
        List.countP_cons_of_neg _ _ (by simp [isHexDigit, hd])]
      exact ih

theorem hexPairs_length (ds : List Nat) (h : ds.length % 2 = 0) :
    2 * (hexPairs ds).length = ds.length := by
  induction ds using hexPairs.induct with
  | case1 => rfl
  | case2 d => simp at h
  | case3 d1 d2 rest ih =>
    simp only [List.length_cons] at h ⊢
    have h2 : rest.length % 2 = 0 := by omega
    have := ih h2
    simp only [hexPairs, List.length_cons]
    omega

theorem fromHexLoop_eq (cs : List Char) (pending : Bool) (buf : Nat) :
    fromHexLoop cs pending buf =
      if cs.all (fun c => isHexDigit c || isHexSkipWs c) = true ∧
          (cond pending 1 0 + cs.countP (fun c => isHexDigit c)) % 2 = 0
      then some (hexPairs
        (cond pending [buf % 16] [] ++ cs.filterMap hexDigitValue))
      else none := by
  induction cs generalizing pending buf with
  | nil =>
    cases pending with
    | false => simp [fromHexLoop, hexPairs]
    | true => simp [fromHexLoop]
  | cons c rest ih =>
    cases hd : hexDigitValue c with
    | some d =>
      have hdig : isHexDigit c = true := by simp [isHexDigit, hd]
      have hd16 : d < 16 := hexDigitValue_lt_16 c d hd
      rw [List.all_cons, List.countP_cons_of_pos _ _ hdig,
        List.filterMap_cons_some hd, hdig]
      simp only [Bool.true_or, Bool.true_and]
      cases pending with
      | true =>
        have hstep : fromHexLoop (c :: rest) true buf =
            (fromHexLoop rest false (buf * 16 % 256 + d)).map
              (fun tl => (buf * 16 % 256 + d) :: tl) := by
          rw [fromHexLoop, hd]
          rfl
        rw [hstep, ih]
        simp only [Bool.cond_false, Bool.cond_true, List.nil_append,
          Nat.zero_add]
        by_cases hc : rest.all (fun c => isHexDigit c || isHexSkipWs c)
            = true ∧ rest.countP (fun c => isHexDigit c) % 2 = 0
        · obtain ⟨hall, hpar⟩ := hc
          rw [if_pos ⟨hall, hpar⟩, if_pos ⟨hall, by
            have heq : List.countP (fun c => isHexDigit c) rest =
                List.countP isHexDigit rest := rfl
            omega⟩]
          have hbyte : buf * 16 % 256 + d = 16 * (buf % 16) + d := by omega
          simp [hexPairs, hbyte]
        · rw [if_neg hc, if_neg (fun hcon => hc ⟨hcon.1, by
            have := hcon.2
            have heq : List.countP (fun c => isHexDigit c) rest =
                List.countP isHexDigit rest := rfl
            omega⟩)]
          rfl
      | false =>
        have hstep : fromHexLoop (c :: rest) false buf =
            fromHexLoop rest true (buf * 16 % 256 + d) := by
          rw [fromHexLoop, hd]
          rfl
        rw [hstep, ih]
        simp only [Bool.cond_false, Bool.cond_true, List.nil_append,
          Nat.zero_add]
        have hmod : (buf * 16 % 256 + d) % 16 = d := by omega
        by_cases hc : rest.all (fun c => isHexDigit c || isHexSkipWs c)
            = true ∧ (1 + rest.countP (fun c => isHexDigit c)) % 2 = 0
        · obtain ⟨hall, hpar⟩ := hc
          rw [if_pos ⟨hall, hpar⟩, if_pos ⟨hall, by
            have heq : List.countP (fun c => isHexDigit c) rest =
                List.countP isHexDigit rest := rfl
            omega⟩]
          simp [hmod]
        · rw [if_neg hc, if_neg (fun hcon => hc ⟨hcon.1, by
            have := hcon.2
            have heq : List.countP (fun c => isHexDigit c) rest =
                List.countP isHexDigit rest := rfl
            omega⟩)]
    | none =>
      have hdig : isHexDigit c = false := by simp [isHexDigit, hd]
      rw [List.all_cons, List.countP_cons_of_neg _ _ (by simp [hdig]),
        List.filterMap_cons_none hd, hdig]
      simp only [Bool.false_or]
      by_cases hws : isHexSkipWs c = true
      · have hstep : fromHexLoop (c :: rest) pending buf =
            fromHexLoop rest pending (buf * 16 % 256 / 16) := by
          rw [fromHexLoop, hd, if_pos hws]
        rw [hstep, ih, hws]
        have h16 : buf * 16 % 256 / 16 % 16 = buf % 16 := by omega
        simp [h16]
      · have hstep : fromHexLoop (c :: rest) pending buf = none := by
          rw [fromHexLoop, hd, if_neg hws]
        have hws2 : isHexSkipWs c = false := by simpa using hws
        rw [hstep, hws2, if_neg (by
          rintro ⟨hall, -⟩
          simp at hall)]

theorem from_hex_eq (cs : List Char) :
    from_hex cs =
      if cs.all (fun c => isHexDigit c || isHexSkipWs c) = true ∧
          cs.countP (fun c => isHexDigit c) % 2 = 0
      then some (hexPairs (cs.filterMap hexDigitValue)) else none := by
  rw [from_hex, fromHexLoop_eq]
  simp

theorem addressFromStr_eq_some_iff (cs : List Char) (bs : List Nat) :
    addressFromStr cs = some bs ↔
      from_hex cs = some bs ∧ bs.length = 20 := by
  unfold addressFromStr
  cases hdec : from_hex cs with
  | none => simp
  | some bs2 =>
    by_cases hlen : bs2.length = 20
    · simp only [if_pos hlen, Option.some.injEq]
      constructor
      · rintro rfl
        exact ⟨rfl, hlen⟩
      · rintro ⟨heq, -⟩
        cases heq
        rfl
    · simp only [if_neg hlen]
      constructor
      · intro h
        cases h
      · rintro ⟨heq, hl⟩
        cases heq
        exact absurd hl hlen

theorem parse_address_eq_ok_iff (s : String) (bs : List Nat) :
    parse_address s = Except.ok bs ↔
      startsWith0x s = true ∧ addressFromStr (s.data.drop 2) = some bs := by
  unfold parse_address
  by_cases hp : startsWith0x s = true
  · rw [if_pos hp]
    cases haf : addressFromStr (s.data.drop 2) with
    | none => simp [hp]
    | some bs2 => simp [hp]
  · rw [if_neg hp]
    simp [hp]

theorem addressFromStr_eq_some_char_iff (cs : List Char) (bs : List Nat) :
    addressFromStr cs = some bs ↔
      cs.all (fun c => isHexDigit c || isHexSkipWs c) = true ∧
        cs.countP (fun c => isHexDigit c) = 40 ∧
        bs = hexPairs (cs.filterMap hexDigitValue) := by
  rw [addressFromStr_eq_some_iff, from_hex_eq]
  by_cases hc : cs.all (fun c => isHexDigit c || isHexSkipWs c) = true ∧
      cs.countP (fun c => isHexDigit c) % 2 = 0
  · rw [if_pos hc]
    have hlen : 2 * (hexPairs (cs.filterMap hexDigitValue)).length =
        cs.countP (fun c => isHexDigit c) := by
      rw [hexPairs_length]
      · exact length_filterMap_hexDigitValue cs
      · rw [length_filterMap_hexDigitValue]
        exact hc.2
    constructor
    · rintro ⟨heq, hl⟩
      cases heq
      exact ⟨hc.1, by omega, rfl⟩
    · rintro ⟨-, hcount, rfl⟩
      exact ⟨rfl, by omega⟩
  · rw [if_neg hc]
    constructor
    · rintro ⟨heq, -⟩
      cases heq
    · rintro ⟨hall, hcount, -⟩
      exact (hc ⟨hall, by omega⟩).elim

/-! ### Claims C4-C5 -/

/-- C4 counterexample: the decoder behind `H160::FromStr` skips whitespace,
so `parse_address` accepts a "0x" input whose remainder is 41 characters
(40 hex digits and a trailing space), refuting "succeeds only if the
remaining characters are exactly 40 hex digits". -/
theorem parse_address_whitespace_accepted :
    parse_address "0x000102030405060708090a0b0c0d0e0f10111213 " =
        Except.ok [0, 1, 2, 3, 4, 5, 6, 7, 8, 9, 10, 11, 12, 13, 14, 15,
          16, 17, 18, 19]
    ∧ (("0x000102030405060708090a0b0c0d0e0f10111213 " :
        String).data.drop 2).length = 41
    ∧ (("0x000102030405060708090a0b0c0d0e0f10111213 " :
        String).data.drop 2).all isHexDigit = false :=
  ⟨rfl, rfl, rfl⟩

/-- C4 (amended): `parse_address` succeeds if and only if the input starts
with "0x" and the remainder consists of hex digits and skipped whitespace
(space, CR, LF, TAB) with exactly 40 hex digits among them; on success it
yields the 20 bytes decoded from those digits in order, and on the plain
40-digit example it yields the bytes 0,1,...,19. -/
theorem parse_address_spec (s : String) :
    ((∃ bytes, parse_address s = Except.ok bytes) ↔
      startsWith0x s = true ∧
        (s.data.drop 2).all (fun c => isHexDigit c || isHexSkipWs c) = true ∧
        (s.data.drop 2).countP (fun c => isHexDigit c) = 40)
    ∧ parse_address "0x000102030405060708090a0b0c0d0e0f10111213" =
        Except.ok [0, 1, 2, 3, 4, 5, 6, 7, 8, 9, 10, 11, 12, 13, 14, 15,
          16, 17, 18, 19] := by
  constructor
  · constructor
    · rintro ⟨bytes, hb⟩
      rw [parse_address_eq_ok_iff] at hb
      obtain ⟨hp, haf⟩ := hb
      rw [addressFromStr_eq_some_char_iff] at haf
      exact ⟨hp, haf.1, haf.2.1⟩
    · rintro ⟨hp, hall, hcount⟩
      refine ⟨hexPairs ((s.data.drop 2).filterMap hexDigitValue), ?_⟩
      rw [parse_address_eq_ok_iff]
      exact ⟨hp, (addressFromStr_eq_some_char_iff _ _).mpr
        ⟨hall, hcount, rfl⟩⟩
  · rfl

theorem parse_address_spec_witness :
    ∃ bytes, parse_address "0x000102030405060708090a0b0c0d0e0f10111213" =
      Except.ok bytes :=
  (parse_address_spec "0x000102030405060708090a0b0c0d0e0f10111213").1.mpr
    (by decide)

/-- C5 counterexample: a "0x" input whose remainder is not exactly 40 hex
digits (a leading space before 40 digits) does not produce the
invalid-encoding error: the whitespace-skipping decoder accepts it,
refuting the claim's second universal. -/
theorem parse_address_whitespace_no_error :
    parse_address "0x 000102030405060708090a0b0c0d0e0f10111213" =
        Except.ok [0, 1, 2, 3, 4, 5, 6, 7, 8, 9, 10, 11, 12, 13, 14, 15,
          16, 17, 18, 19]
    ∧ startsWith0x "0x 000102030405060708090a0b0c0d0e0f10111213" = true
    ∧ (("0x 000102030405060708090a0b0c0d0e0f10111213" :
        String).data.drop 2).all isHexDigit = false :=
  ⟨rfl, rfl, rfl⟩

/-- C5 (amended): the two failure kinds of `parse_address` are
distinguishable: every input without the "0x" mark fails with the
missing-prefix error; every "0x" input whose remainder the decoder rejects
(a character that is neither hex digit nor skipped whitespace, or a hex
digit count other than 40) fails with the distinct invalid-encoding error;
the two error values are never equal. -/
theorem parse_address_error_kinds (s : String) :
    (startsWith0x s = false →
      parse_address s = Except.error AddressParseError.missingHexMark)
    ∧ (startsWith0x s = true →
      ¬((s.data.drop 2).all (fun c => isHexDigit c || isHexSkipWs c) = true
        ∧ (s.data.drop 2).countP (fun c => isHexDigit c) = 40) →
      parse_address s = Except.error AddressParseError.invalidEncoding)
    ∧ AddressParseError.missingHexMark ≠ AddressParseError.invalidEncoding := by
  refine ⟨?_, ?_, by decide⟩
  · intro hp
    unfold parse_address
    rw [if_neg (by simp [hp])]
  · intro hp hbad
    unfold parse_address
    rw [if_pos hp]
    cases haf : addressFromStr (s.data.drop 2) with
    | none => rfl
    | some bs =>
      exfalso
      rw [addressFromStr_eq_some_char_iff] at haf
      exact hbad ⟨haf.1, haf.2.1⟩

theorem parse_address_error_kinds_witness :
    parse_address "0000000000000000000000000000000000000000" =
        Except.error AddressParseError.missingHexMark
    ∧ parse_address "0x00000000000000" =
        Except.error AddressParseError.invalidEncoding :=
  ⟨(parse_address_error_kinds "0000000000000000000000000000000000000000").1
      rfl,
    (parse_address_error_kinds "0x00000000000000").2.1 rfl (by decide)⟩

/-! ### Claim C10: the crate-path accessors -/

/-- Split a character list at each "::" token, as `syn` separates path
segments (the six crate strings contain no lone ':'). -/
def splitPathSegs : List Char → List (List Char)
  | [] => [[]]
  | ':' :: ':' :: rest => [] :: splitPathSegs rest
  | c :: rest =>
    match splitPathSegs rest with
    | [] => [[c]]
    | seg :: segs => (c :: seg) :: segs

/-- Model of `syn::parse_str::<Path>` on the crate strings: every
"::"-separated segment must be a plain non-keyword identifier. -/
def parseSynPath (s : String) : Option (List (List Char)) :=
  let segs := splitPathSegs s.data
  if segs.all (fun seg => isIdentShape ⟨seg⟩ && !isSynKeyword ⟨seg⟩)
  then some segs else none

/-- `ethers_core_crate`: parse the first component of the resolved triple
as a `syn::Path`; `none` models the `expect("valid path; qed")` panic. -/
def ethers_core_crate (env : CargoEnv) (lockExists : Bool) :
    Option (List (List Char)) :=
  parseSynPath (determine_ethers_crates env lockExists).1.1

/-- `ethers_contract_crate`: second component of the resolved triple. -/
def ethers_contract_crate (env : CargoEnv) (lockExists : Bool) :
    Option (List (List Char)) :=
  parseSynPath (determine_ethers_crates env lockExists).1.2.1

/-- `ethers_providers_crate`: third component of the resolved triple. -/
def ethers_providers_crate (env : CargoEnv) (lockExists : Bool) :
    Option (List (List Char)) :=
  parseSynPath (determine_ethers_crates env lockExists).1.2.2

/-- C10: the three accessor functions never panic: whatever triple
`determine_ethers_crates` returns (one of the two fixed ones), each of its
component strings parses as a syntactically valid path, so the
`expect("valid path; qed")` branch is unreachable. -/
theorem ethers_crate_accessors_never_panic (env : CargoEnv)
    (lockExists : Bool) :
    (ethers_core_crate env lockExists).isSome = true
    ∧ (ethers_contract_crate env lockExists).isSome = true
    ∧ (ethers_providers_crate env lockExists).isSome = true := by
  unfold ethers_core_crate ethers_contract_crate ethers_providers_crate
  rcases determine_triple_cases env lockExists with h | h <;> rw [h]
  · exact ⟨by decide, by decide, by decide⟩
  · exact ⟨by decide, by decide, by decide⟩
